import Mathlib

/-!
Verification development for the `netlink-packet-wireguard` device-attribute
codec (`src/nlas/device.rs`).

Bytes are modelled as natural numbers; every byte produced by the encoder is
reduced modulo 256, and every byte read from a buffer is reduced modulo 256
before use, matching `u8` arithmetic.  Multi-byte scalars are written in
little-endian order, the concrete instance of the Linux netlink native-endian
convention on the supported hosts.

The TLV primitive (attribute header, alignment, stream iteration) is the
`netlink-packet-utils` collaborator described in the specification: each
attribute is a 16-bit length-including-header, a 16-bit kind field whose two
top bits are flag bits (`NLA_F_NESTED` is the highest), `length - 4` payload
bytes, then zero padding to the next 4-byte boundary.
-/

deriving instance DecidableEq for Except

namespace Wg

/-- Round a size up to the next 4-byte boundary (netlink attribute alignment). -/
def nlaAlign (n : Nat) : Nat := ((n + 3) / 4) * 4

/-- The `NLA_F_NESTED` flag bit of the 16-bit kind field. -/
def NLA_F_NESTED : Nat := 32768

/-- Write `w` bytes of `n` in little-endian order. -/
def writeLE : Nat → Nat → List Nat
  | 0, _ => []
  | w + 1, n => n % 256 :: writeLE w (n / 256)

/-- Read a little-endian number from a byte list (each byte reduced mod 256). -/
def readLE : List Nat → Nat
  | [] => 0
  | b :: rest => b % 256 + 256 * readLE rest

/-- Full encoding of one attribute: length field (`value_len + 4`), kind
field (flags included by the caller), payload, zero padding to alignment.
The declared length is computed from `vlen`, exactly as the library writes
`value_len() + 4` independently of what `emit_value` produces. -/
def nlaEmit (vlen kf : Nat) (value : List Nat) : List Nat :=
  writeLE 2 (vlen + 4) ++ writeLE 2 kf ++ value ++
    List.replicate (nlaAlign vlen - vlen) 0

/-- Header validation of the record at the head of a buffer, as performed by
`NlaBuffer::new_checked`: the buffer must hold a 4-byte header, the declared
length must be at least 4 and must not overrun the buffer.  Returns the
declared length and the raw kind field. -/
def checkHeader : List Nat → Except String (Nat × Nat)
  | b0 :: b1 :: b2 :: b3 :: tail =>
    let len := b0 % 256 + 256 * (b1 % 256)
    let kf := b2 % 256 + 256 * (b3 % 256)
    if len < 4 then .error "invalid NLA length field"
    else if 4 + tail.length < len then .error "NLA length field overruns buffer"
    else .ok (len, kf)
  | _ => .error "buffer too small for NLA header"

/-- One step of `NlasIterator`: fuelled so that the recursion is structural
and every concrete stream evaluates by kernel reduction.  The fuel never runs
out when it exceeds the buffer length, since each record consumes at least 4
bytes. -/
def nlasStreamGo : Nat → List Nat → List (Except String (Nat × List Nat))
  | 0, _ => [.error "iterator fuel exhausted"]
  | fuel + 1, buf =>
    if buf = [] then []
    else
      match checkHeader buf with
      | .error e => [.error e]
      | .ok (len, kf) =>
        .ok (kf, (buf.drop 4).take (len - 4)) ::
          nlasStreamGo fuel (buf.drop (nlaAlign len))

/-- The sequence of records produced by `NlasIterator::new(buf)`: each item is
either a record `(raw kind field, payload)` or the decode error at which the
iterator stops. -/
def nlasStream (buf : List Nat) : List (Except String (Nat × List Nat)) :=
  nlasStreamGo (buf.length + 1) buf

/-- Chain an error message onto a lower-level error, the way `anyhow`'s
`.context(msg)` displays a wrapped error chain. -/
def errContext (msg e : String) : String := msg ++ ": " ++ e

theorem length_writeLE (w n : Nat) : (writeLE w n).length = w := by
  induction w generalizing n with
  | zero => rfl
  | succ w ih => simp [writeLE, ih]

theorem readLE_writeLE (w n : Nat) (h : n < 2 ^ (8 * w)) :
    readLE (writeLE w n) = n := by
  induction w generalizing n with
  | zero => simp at h; simp [h, writeLE, readLE]
  | succ w ih =>
    have hdiv : n / 256 < 2 ^ (8 * w) := by
      have h256 : (256 : Nat) = 2 ^ 8 := by norm_num
      rw [Nat.div_lt_iff_lt_mul (by norm_num)]
      calc n < 2 ^ (8 * (w + 1)) := h
        _ = 2 ^ (8 * w) * 256 := by rw [h256, ← pow_add]; ring_nf
    simp only [writeLE, readLE, ih (n / 256) hdiv]
    omega

theorem le_nlaAlign (n : Nat) : n ≤ nlaAlign n := by
  unfold nlaAlign; omega

theorem nlaAlign_add_four (n : Nat) : nlaAlign (n + 4) = nlaAlign n + 4 := by
  unfold nlaAlign; omega

theorem nlaEmit_length (vlen kf : Nat) (value : List Nat)
    (h : value.length = vlen) :
    (nlaEmit vlen kf value).length = 4 + nlaAlign vlen := by
  have := le_nlaAlign vlen
  simp [nlaEmit, length_writeLE, h]
  omega

theorem checkHeader_ok_bounds (buf : List Nat) (len kf : Nat)
    (hc : checkHeader buf = .ok (len, kf)) : 4 ≤ len ∧ len ≤ buf.length := by
  match buf, hc with
  | b0 :: b1 :: b2 :: b3 :: tail, hc =>
    simp only [checkHeader] at hc
    split at hc
    · exact absurd hc (by simp)
    · split at hc
      · exact absurd hc (by simp)
      · simp only [Except.ok.injEq, Prod.mk.injEq] at hc
        simp [List.length_cons]
        omega

theorem drop_align_length_lt (buf : List Nat) (len kf : Nat)
    (hb : buf ≠ []) (hc : checkHeader buf = .ok (len, kf)) :
    (buf.drop (nlaAlign len)).length < buf.length := by
  have hlen := checkHeader_ok_bounds buf len kf hc
  have h4 : 4 ≤ nlaAlign len := le_trans hlen.1 (le_nlaAlign len)
  have hb' : 0 < buf.length := List.length_pos.mpr hb
  simp [List.length_drop]
  omega

theorem nlasStreamGo_congr (f1 f2 : Nat) (buf : List Nat)
    (h1 : buf.length < f1) (h2 : buf.length < f2) :
    nlasStreamGo f1 buf = nlasStreamGo f2 buf := by
  induction f1 generalizing f2 buf with
  | zero => omega
  | succ f1 ih =>
    match f2, h2 with
    | f2 + 1, h2 =>
      simp only [nlasStreamGo]
      by_cases hb : buf = []
      · simp [hb]
      · simp only [hb, if_false]
        match hc : checkHeader buf with
        | .error e => rfl
        | .ok (len, kf) =>
          have hd := drop_align_length_lt buf len kf hb hc
          simp only [List.cons.injEq, true_and]
          exact ih f2 (buf.drop (nlaAlign len)) (by omega) (by omega)

/-- Unfolding equation for `nlasStream` (one iterator step). -/
theorem nlasStream_eq (buf : List Nat) :
    nlasStream buf =
      (if buf = [] then []
       else
         match checkHeader buf with
         | .error e => [.error e]
         | .ok (len, kf) =>
           .ok (kf, (buf.drop 4).take (len - 4)) ::
             nlasStream (buf.drop (nlaAlign len))) := by
  unfold nlasStream
  conv_lhs => rw [nlasStreamGo]
  by_cases hb : buf = []
  · simp [hb]
  · simp only [hb, if_false]
    match hc : checkHeader buf with
    | .error e => rfl
    | .ok (len, kf) =>
      have hd := drop_align_length_lt buf len kf hb hc
      simp only [List.cons.injEq, true_and]
      exact nlasStreamGo_congr _ _ _ (by omega) (by omega)

theorem drop_four_cons (n a b c d : Nat) (t : List Nat) :
    List.drop (n + 4) (a :: b :: c :: d :: t) = List.drop n t := rfl

/-- Iterating a buffer that starts with one well-sized emitted attribute
yields that attribute's record followed by the iteration of the remainder. -/
theorem nlasStream_block (vlen kf : Nat) (value rest : List Nat)
    (hl : value.length = vlen) (hbnd : vlen + 4 ≤ 65535) (hk : kf < 65536) :
    nlasStream (nlaEmit vlen kf value ++ rest) =
      Except.ok (kf, value) :: nlasStream rest := by
  have hal := le_nlaAlign vlen
  have hexp : nlaEmit vlen kf value ++ rest =
      (vlen + 4) % 256 :: (vlen + 4) / 256 % 256 :: kf % 256 :: kf / 256 % 256 ::
        ((value ++ List.replicate (nlaAlign vlen - vlen) 0) ++ rest) := by
    simp [nlaEmit, writeLE, List.append_assoc]
  have hch : checkHeader ((vlen + 4) % 256 :: (vlen + 4) / 256 % 256 ::
      kf % 256 :: kf / 256 % 256 ::
      ((value ++ List.replicate (nlaAlign vlen - vlen) 0) ++ rest)) =
      Except.ok (vlen + 4, kf) := by
    simp only [checkHeader, List.length_append, List.length_replicate, hl]
    have h1 : (vlen + 4) % 256 % 256 + 256 * ((vlen + 4) / 256 % 256 % 256) =
        vlen + 4 := by omega
    have h2 : kf % 256 % 256 + 256 * (kf / 256 % 256 % 256) = kf := by omega
    rw [h1, h2, if_neg (by omega), if_neg (by omega)]
  rw [hexp, nlasStream_eq, if_neg (List.cons_ne_nil _ _), hch]
  have htake :
      (((value ++ List.replicate (nlaAlign vlen - vlen) 0) ++ rest).take
        (vlen + 4 - 4)) = value := by
    rw [Nat.add_sub_cancel, List.append_assoc]
    exact List.take_left' hl
  have hpadlen : (value ++ List.replicate (nlaAlign vlen - vlen) 0).length =
      nlaAlign vlen := by
    simp [List.length_append, List.length_replicate, hl]
    omega
  have hdrop : List.drop (nlaAlign (vlen + 4))
      ((vlen + 4) % 256 :: (vlen + 4) / 256 % 256 :: kf % 256 ::
        kf / 256 % 256 ::
        ((value ++ List.replicate (nlaAlign vlen - vlen) 0) ++ rest)) =
      rest := by
    rw [nlaAlign_add_four, drop_four_cons]
    exact List.drop_left' hpadlen
  simp only [List.drop_succ_cons, List.drop_zero, htake, hdrop]

/-- Is `b` a UTF-8 continuation byte (`10xxxxxx`)? -/
def utf8Cont (b : Nat) : Bool := decide (128 ≤ b ∧ b ≤ 191)

/-- Standard UTF-8 well-formedness of a byte sequence (shortest-form,
surrogate-free), as checked by Rust's `String::from_utf8`. -/
def utf8Valid : List Nat → Bool
  | [] => true
  | b :: rest =>
    if b ≤ 127 then utf8Valid rest
    else if 194 ≤ b ∧ b ≤ 223 then
      match rest with
      | c1 :: r => utf8Cont c1 && utf8Valid r
      | [] => false
    else if b = 224 then
      match rest with
      | c1 :: c2 :: r =>
        decide (160 ≤ c1 ∧ c1 ≤ 191) && utf8Cont c2 && utf8Valid r
      | _ => false
    else if 225 ≤ b ∧ b ≤ 236 then
      match rest with
      | c1 :: c2 :: r => utf8Cont c1 && utf8Cont c2 && utf8Valid r
      | _ => false
    else if b = 237 then
      match rest with
      | c1 :: c2 :: r =>
        decide (128 ≤ c1 ∧ c1 ≤ 159) && utf8Cont c2 && utf8Valid r
      | _ => false
    else if 238 ≤ b ∧ b ≤ 239 then
      match rest with
      | c1 :: c2 :: r => utf8Cont c1 && utf8Cont c2 && utf8Valid r
      | _ => false
    else if b = 240 then
      match rest with
      | c1 :: c2 :: c3 :: r =>
        decide (144 ≤ c1 ∧ c1 ≤ 191) && utf8Cont c2 && utf8Cont c3 &&
          utf8Valid r
      | _ => false
    else if 241 ≤ b ∧ b ≤ 243 then
      match rest with
      | c1 :: c2 :: c3 :: r =>
        utf8Cont c1 && utf8Cont c2 && utf8Cont c3 && utf8Valid r
      | _ => false
    else if b = 244 then
      match rest with
      | c1 :: c2 :: c3 :: r =>
        decide (128 ≤ c1 ∧ c1 ≤ 143) && utf8Cont c2 && utf8Cont c3 &&
          utf8Valid r
      | _ => false
    else false

/-- `netlink-packet-utils` `parse_u16`: the payload must be exactly 2 bytes. -/
def parse_u16 (payload : List Nat) : Except String Nat :=
  if payload.length = 2 then .ok (readLE payload) else .error "invalid u16"

/-- `netlink-packet-utils` `parse_u32`: the payload must be exactly 4 bytes. -/
def parse_u32 (payload : List Nat) : Except String Nat :=
  if payload.length = 4 then .ok (readLE payload) else .error "invalid u32"

/-- `netlink-packet-utils` `parse_u64`: the payload must be exactly 8 bytes. -/
def parse_u64 (payload : List Nat) : Except String Nat :=
  if payload.length = 8 then .ok (readLE payload) else .error "invalid u64"

/-- `netlink-packet-utils` `parse_u8`: the payload must be exactly 1 byte. -/
def parse_u8 (payload : List Nat) : Except String Nat :=
  if payload.length = 1 then .ok (readLE payload) else .error "invalid u8"

/-- `netlink-packet-utils` `parse_string`: an empty payload is the empty
string; otherwise the final byte (the nul terminator position) is stripped
and the remainder must be valid UTF-8.  The result is the byte content of
the Rust `String`. -/
def parse_string (payload : List Nat) : Except String (List Nat) :=
  if payload.isEmpty then .ok []
  else if utf8Valid payload.dropLast then .ok payload.dropLast
  else .error "invalid string"

/-- A Rust slice-to-array conversion `payload.try_into()` for a 32-byte
array: succeeds exactly when the payload has length 32. -/
def tryIntoKey (payload : List Nat) : Except String (List Nat) :=
  if payload.length = 32 then .ok payload
  else .error "could not convert slice to an array"

theorem readLE_length_two (b0 b1 : Nat) :
    readLE [b0, b1] = b0 % 256 + 256 * (b1 % 256) := by
  simp [readLE]

theorem parse_u16_writeLE (v : Nat) (h : v < 65536) :
    parse_u16 (writeLE 2 v) = .ok v := by
  simp [parse_u16, length_writeLE, readLE_writeLE 2 v (by omega)]

theorem parse_u32_writeLE (v : Nat) (h : v < 4294967296) :
    parse_u32 (writeLE 4 v) = .ok v := by
  simp [parse_u32, length_writeLE, readLE_writeLE 4 v (by omega)]

theorem parse_u64_writeLE (v : Nat) (h : v < 18446744073709551616) :
    parse_u64 (writeLE 8 v) = .ok v := by
  simp [parse_u64, length_writeLE, readLE_writeLE 8 v (by omega)]

/-- Iterating the concatenation of a list of well-sized emitted attributes
yields exactly the list of their records, in order. -/
theorem nlasStream_flatten_emit {α : Type} (vl kf : α → Nat)
    (ev : α → List Nat) (l : List α)
    (h : ∀ a ∈ l, (ev a).length = vl a ∧ vl a + 4 ≤ 65535 ∧ kf a < 65536) :
    nlasStream ((l.map (fun a => nlaEmit (vl a) (kf a) (ev a))).flatten) =
      l.map (fun a => Except.ok (kf a, ev a)) := by
  induction l with
  | nil => rfl
  | cons a l ih =>
    have ha := h a (List.mem_cons_self a l)
    rw [List.map_cons, List.flatten_cons, List.map_cons,
      nlasStream_block (vl a) (kf a) (ev a) _ ha.1 ha.2.1 ha.2.2,
      ih (fun x hx => h x (List.mem_cons_of_mem a hx))]

/-! ## Kernel ABI constants

Modelled from the spec: the numeric tag values of every attribute kind in
all three families, the 32-byte key length and the address-family numbers
are defined in the repository's `constants` module (not part of the sources
under verification); the specification requires them to match the kernel's
WireGuard netlink ABI exactly, which is what is written here. -/

def WG_KEY_LEN : Nat := 32

def AF_INET : Nat := 2

def AF_INET6 : Nat := 10

def WGDEVICE_A_UNSPEC : Nat := 0

def WGDEVICE_A_IFINDEX : Nat := 1

def WGDEVICE_A_IFNAME : Nat := 2

def WGDEVICE_A_PRIVATE_KEY : Nat := 3

def WGDEVICE_A_PUBLIC_KEY : Nat := 4

def WGDEVICE_A_FLAGS : Nat := 5

def WGDEVICE_A_LISTEN_PORT : Nat := 6

def WGDEVICE_A_FWMARK : Nat := 7

def WGDEVICE_A_PEERS : Nat := 8

def WGPEER_A_UNSPEC : Nat := 0

def WGPEER_A_PUBLIC_KEY : Nat := 1

def WGPEER_A_PRESHARED_KEY : Nat := 2

def WGPEER_A_FLAGS : Nat := 3

def WGPEER_A_ENDPOINT : Nat := 4

def WGPEER_A_PERSISTENT_KEEPALIVE_INTERVAL : Nat := 5

def WGPEER_A_LAST_HANDSHAKE_TIME : Nat := 6

def WGPEER_A_RX_BYTES : Nat := 7

def WGPEER_A_TX_BYTES : Nat := 8

def WGPEER_A_ALLOWEDIPS : Nat := 9

def WGPEER_A_PROTOCOL_VERSION : Nat := 10

def WGALLOWEDIP_A_UNSPEC : Nat := 0

def WGALLOWEDIP_A_FAMILY : Nat := 1

def WGALLOWEDIP_A_IPADDR : Nat := 2

def WGALLOWEDIP_A_CIDR_MASK : Nat := 3

/-- All bytes of a list are in `u8` range. -/
def bytesOk (l : List Nat) : Bool := l.all (fun b => decide (b < 256))

/-! ## Allowed-IP attribute family

Modelled from the spec: the `WgAllowedIpAttrs` family (`§4.1`) lives in the
repository's `allowedip` module, which is not among the sources under
verification; the definitions below follow the specification's contract:
variants unspecified-blob, address family (16-bit), IP address (4 or 16 raw
bytes, the length deciding v4 vs v6), CIDR prefix (8-bit); unknown tags and
length mismatches are decode failures. -/

/-- A v4 (4-byte) or v6 (16-byte) raw IP address, the payload of
`WGALLOWEDIP_A_IPADDR`. -/
inductive IpAddrV where
  | v4 (bytes : List Nat)
  | v6 (bytes : List Nat)
deriving DecidableEq

/-- Modelled from the spec: the allowed-IP attribute variants of `§3`. -/
inductive WgAllowedIpAttrs where
  | Unspec (bytes : List Nat)
  | Family (v : Nat)
  | IpAddr (a : IpAddrV)
  | Cidr (v : Nat)
deriving DecidableEq

/-- Modelled from the spec: one allowed-IP attribute group, owned by its
peer (`WgAllowedIp(pub Vec<WgAllowedIpAttrs>)`). -/
structure WgAllowedIp where
  attrs : List WgAllowedIpAttrs
deriving DecidableEq

namespace WgAllowedIpAttrs

/-- Modelled from the spec: `length(variant)` for the allowed-IP codec. -/
def value_len : WgAllowedIpAttrs → Nat
  | .Unspec bytes => bytes.length
  | .Family _ => 2
  | .IpAddr (.v4 _) => 4
  | .IpAddr (.v6 _) => 16
  | .Cidr _ => 1

/-- Modelled from the spec: `tag(variant)` for the allowed-IP codec. -/
def kind : WgAllowedIpAttrs → Nat
  | .Unspec _ => WGALLOWEDIP_A_UNSPEC
  | .Family _ => WGALLOWEDIP_A_FAMILY
  | .IpAddr _ => WGALLOWEDIP_A_IPADDR
  | .Cidr _ => WGALLOWEDIP_A_CIDR_MASK

/-- Modelled from the spec: `encode(variant)` for the allowed-IP codec
(native byte order for scalars, raw bytes for the address). -/
def emit_value : WgAllowedIpAttrs → List Nat
  | .Unspec bytes => bytes
  | .Family v => writeLE 2 v
  | .IpAddr (.v4 b) => b
  | .IpAddr (.v6 b) => b
  | .Cidr v => [v % 256]

/-- No allowed-IP variant is a nested attribute list. -/
def is_nested (_ : WgAllowedIpAttrs) : Bool := false

/-- The raw 16-bit kind field as emitted (tag, no flag bits here). -/
def kindField (a : WgAllowedIpAttrs) : Nat := a.kind

/-- Total encoded length: header plus payload, aligned. -/
def buffer_len (a : WgAllowedIpAttrs) : Nat := 4 + nlaAlign a.value_len

/-- Full encoding of one allowed-IP attribute. -/
def emit (a : WgAllowedIpAttrs) : List Nat :=
  nlaEmit a.value_len a.kindField a.emit_value

/-- Constructibility of an allowed-IP attribute as a Rust value, plus
representability of its length in the 16-bit TLV length field: bytes are
`u8`, the IP address is 4 or 16 bytes, family is `u16`, the prefix is `u8`,
and a blob is small enough for its header. -/
def wf : WgAllowedIpAttrs → Bool
  | .Unspec b => bytesOk b && decide (b.length ≤ 65531)
  | .Family v => decide (v < 65536)
  | .IpAddr (.v4 b) => decide (b.length = 4) && bytesOk b
  | .IpAddr (.v6 b) => decide (b.length = 16) && bytesOk b
  | .Cidr v => decide (v < 256)

/-- Modelled from the spec: `decode(tag, payload)` for the allowed-IP codec:
dispatch on the tag; a 16-bit family, an IP address whose payload length
decides v4 vs v6, an 8-bit prefix length; any other tag or length mismatch
is a descriptive failure. -/
def parse (kind : Nat) (payload : List Nat) :
    Except String WgAllowedIpAttrs :=
  if kind = WGALLOWEDIP_A_UNSPEC then .ok (.Unspec payload)
  else if kind = WGALLOWEDIP_A_FAMILY then
    match parse_u16 payload with
    | .ok v => .ok (.Family v)
    | .error e => .error (errContext "invalid WGALLOWEDIP_A_FAMILY value" e)
  else if kind = WGALLOWEDIP_A_IPADDR then
    if payload.length = 4 then .ok (.IpAddr (.v4 payload))
    else if payload.length = 16 then .ok (.IpAddr (.v6 payload))
    else .error "invalid WGALLOWEDIP_A_IPADDR value"
  else if kind = WGALLOWEDIP_A_CIDR_MASK then
    match parse_u8 payload with
    | .ok v => .ok (.Cidr v)
    | .error e => .error (errContext "invalid WGALLOWEDIP_A_CIDR_MASK value" e)
  else .error ("invalid NLA kind: " ++ toString kind)

theorem aipAttr_emit_value_length (a : WgAllowedIpAttrs) (h : a.wf = true) :
    a.emit_value.length = a.value_len := by
  match a with
  | .Unspec b => rfl
  | .Family v => simp [emit_value, value_len, length_writeLE]
  | .IpAddr (.v4 b) =>
    simp [wf, bytesOk] at h
    simp [emit_value, value_len, h.1]
  | .IpAddr (.v6 b) =>
    simp [wf, bytesOk] at h
    simp [emit_value, value_len, h.1]
  | .Cidr v => rfl

theorem aipAttr_parse_roundtrip (a : WgAllowedIpAttrs) (h : a.wf = true) :
    parse a.kind a.emit_value = .ok a := by
  match a with
  | .Unspec b => rfl
  | .Family v =>
    simp [wf] at h
    simp [parse, kind, emit_value, WGALLOWEDIP_A_FAMILY, WGALLOWEDIP_A_UNSPEC,
      parse_u16_writeLE v h]
  | .IpAddr (.v4 b) =>
    simp [wf, bytesOk] at h
    simp [parse, kind, emit_value, WGALLOWEDIP_A_IPADDR, WGALLOWEDIP_A_UNSPEC,
      WGALLOWEDIP_A_FAMILY, h.1]
  | .IpAddr (.v6 b) =>
    simp [wf, bytesOk] at h
    simp [parse, kind, emit_value, WGALLOWEDIP_A_IPADDR, WGALLOWEDIP_A_UNSPEC,
      WGALLOWEDIP_A_FAMILY, h.1]
  | .Cidr v =>
    simp [wf] at h
    simp [parse, kind, emit_value, WGALLOWEDIP_A_CIDR_MASK,
      WGALLOWEDIP_A_UNSPEC, WGALLOWEDIP_A_FAMILY, WGALLOWEDIP_A_IPADDR,
      parse_u8, readLE, Nat.mod_eq_of_lt h]

theorem aipAttr_emit_length (a : WgAllowedIpAttrs) (h : a.wf = true) :
    a.emit.length = a.buffer_len := by
  rw [emit, nlaEmit_length _ _ _ (aipAttr_emit_value_length a h)]
  rfl

theorem aipAttr_kind_lt (a : WgAllowedIpAttrs) : a.kind < 16384 := by
  cases a <;> simp [kind, WGALLOWEDIP_A_UNSPEC, WGALLOWEDIP_A_FAMILY,
    WGALLOWEDIP_A_IPADDR, WGALLOWEDIP_A_CIDR_MASK]

end WgAllowedIpAttrs

namespace WgAllowedIp

/-- Modelled from the spec: an allowed-IP group's payload length is the sum
of the total encoded lengths of its attributes. -/
def value_len (g : WgAllowedIp) : Nat :=
  (g.attrs.map WgAllowedIpAttrs.buffer_len).sum

/-- Modelled from the spec: encoding a group emits each of its attributes in
sequence. -/
def emit_value (g : WgAllowedIp) : List Nat :=
  (g.attrs.map WgAllowedIpAttrs.emit).flatten

/-- Modelled from the spec: the tag of a group inside its parent sequence
(its value is ignored by the decoder, which re-enters the stream on the
group's payload). -/
def kind (_ : WgAllowedIp) : Nat := 0

/-- A group is a nested attribute list. -/
def is_nested (_ : WgAllowedIp) : Bool := true

/-- The raw kind field of a group: its tag with `NLA_F_NESTED` set. -/
def kindField (g : WgAllowedIp) : Nat := g.kind + NLA_F_NESTED

/-- A group's total encoded length (header plus payload, aligned). -/
def buffer_len (g : WgAllowedIp) : Nat := 4 + nlaAlign g.value_len

/-- Full encoding of a group as one nested attribute. -/
def emit (g : WgAllowedIp) : List Nat :=
  nlaEmit g.value_len g.kindField g.emit_value

/-- Constructibility of a group: every attribute is well-formed and the
group's payload fits its 16-bit length field. -/
def wf (g : WgAllowedIp) : Bool :=
  g.attrs.all WgAllowedIpAttrs.wf && decide (g.value_len ≤ 65531)

theorem aip_emit_value_length (g : WgAllowedIp) (h : g.wf = true) :
    g.emit_value.length = g.value_len := by
  have hall : ∀ a ∈ g.attrs, a.wf = true := by
    simp [wf] at h
    exact h.1
  rw [emit_value, value_len, List.length_flatten, List.map_map]
  congr 1
  exact List.map_congr_left
    (fun a ha => WgAllowedIpAttrs.aipAttr_emit_length a (hall a ha))

theorem aip_emit_length (g : WgAllowedIp) (h : g.wf = true) :
    g.emit.length = g.buffer_len := by
  rw [emit, nlaEmit_length _ _ _ (aip_emit_value_length g h)]
  rfl

theorem aip_attr_bounds (g : WgAllowedIp) (h : g.wf = true) :
    ∀ a ∈ g.attrs, a.emit_value.length = a.value_len ∧
      a.value_len + 4 ≤ 65535 ∧ a.kindField < 65536 := by
  intro a ha
  simp [wf] at h
  have hwfa : a.wf = true := h.1 a ha
  refine ⟨WgAllowedIpAttrs.aipAttr_emit_value_length a hwfa, ?_, ?_⟩
  · have hmem : a.buffer_len ∈ g.attrs.map WgAllowedIpAttrs.buffer_len :=
      List.mem_map_of_mem _ ha
    have hle : a.buffer_len ≤ g.value_len :=
      List.single_le_sum (fun x _ => Nat.zero_le x) _ hmem
    have := le_nlaAlign a.value_len
    simp [WgAllowedIpAttrs.buffer_len] at hle
    omega
  · have := WgAllowedIpAttrs.aipAttr_kind_lt a
    simp [WgAllowedIpAttrs.kindField]
    omega

/-- Iterating a group's payload yields exactly the records of its encoded
attributes. -/
theorem aip_nlasStream_emit_value (g : WgAllowedIp) (h : g.wf = true) :
    nlasStream g.emit_value =
      g.attrs.map (fun a => Except.ok (a.kindField, a.emit_value)) := by
  rw [emit_value]
  have := nlasStream_flatten_emit WgAllowedIpAttrs.value_len
    WgAllowedIpAttrs.kindField WgAllowedIpAttrs.emit_value g.attrs
    (aip_attr_bounds g h)
  simpa [WgAllowedIpAttrs.emit] using this

end WgAllowedIp

/-- Error message wrapped around every failure inside a nested
`WGPEER_A_ALLOWEDIPS` payload. -/
def allowedIpsErr : String := "failed to parse WGPEER_A_ALLOWEDIPS"

/-- Modelled from the spec: the inner loop of the allowed-IPs decoder — one
attribute of one group per stream record, every failure wrapped with the
allowed-IPs nesting-level message, first failure aborting the decode. -/
def parseAllowedIpAttrItems :
    List (Except String (Nat × List Nat)) →
      Except String (List WgAllowedIpAttrs)
  | [] => .ok []
  | .error e :: _ => .error (errContext allowedIpsErr e)
  | .ok r :: rest =>
    match WgAllowedIpAttrs.parse (r.1 % 16384) r.2 with
    | .error e => .error (errContext allowedIpsErr e)
    | .ok a =>
      match parseAllowedIpAttrItems rest with
      | .error e => .error e
      | .ok l => .ok (a :: l)

/-- Modelled from the spec: the outer loop of the allowed-IPs decoder — one
group per stream record, re-entering the TLV iterator on the group's
payload. -/
def parseAllowedIpGroupItems :
    List (Except String (Nat × List Nat)) → Except String (List WgAllowedIp)
  | [] => .ok []
  | .error e :: _ => .error (errContext allowedIpsErr e)
  | .ok r :: rest =>
    match parseAllowedIpAttrItems (nlasStream r.2) with
    | .error e => .error e
    | .ok attrs =>
      match parseAllowedIpGroupItems rest with
      | .error e => .error e
      | .ok l => .ok (⟨attrs⟩ :: l)

theorem parseAllowedIpAttrItems_roundtrip (attrs : List WgAllowedIpAttrs)
    (h : attrs.all WgAllowedIpAttrs.wf = true) :
    parseAllowedIpAttrItems
      (attrs.map (fun a => Except.ok (a.kindField, a.emit_value))) =
      .ok attrs := by
  induction attrs with
  | nil => rfl
  | cons a l ih =>
    simp only [List.all_cons, Bool.and_eq_true] at h
    have hmask : a.kindField % 16384 = a.kind := by
      have := WgAllowedIpAttrs.aipAttr_kind_lt a
      simp [WgAllowedIpAttrs.kindField]
      omega
    simp only [List.map_cons, parseAllowedIpAttrItems, hmask,
      WgAllowedIpAttrs.aipAttr_parse_roundtrip a h.1, ih h.2]

theorem parseAllowedIpGroupItems_roundtrip (l : List WgAllowedIp)
    (h : l.all WgAllowedIp.wf = true) :
    parseAllowedIpGroupItems
      (l.map (fun g => Except.ok (g.kindField, g.emit_value))) = .ok l := by
  induction l with
  | nil => rfl
  | cons g l ih =>
    simp only [List.all_cons, Bool.and_eq_true] at h
    have hg : g.wf = true := h.1
    have hattrs : g.attrs.all WgAllowedIpAttrs.wf = true := by
      simp [WgAllowedIp.wf] at hg
      exact List.all_eq_true.mpr hg.1
    simp only [List.map_cons, parseAllowedIpGroupItems,
      WgAllowedIp.aip_nlasStream_emit_value g hg,
      parseAllowedIpAttrItems_roundtrip g.attrs hattrs, ih h.2]

/-! ## Peer attribute family

Modelled from the spec: the `WgPeerAttrs` family (`§4.2`) lives in the
repository's `peer` module, which is not among the sources under
verification; the definitions below follow the specification: 32-byte keys,
native-order scalars, the fixed kernel socket-address layout (family tag,
big-endian port, address bytes, version-dependent total size), a 64-bit
seconds / 64-bit nanoseconds handshake pair, and a nested allowed-IPs
sequence decoded by re-entering the TLV iterator twice. -/

/-- A peer endpoint: kernel `sockaddr_in` (4 address bytes) or
`sockaddr_in6` (16 address bytes), with a 16-bit port. -/
inductive SockAddr where
  | v4 (addr : List Nat) (port : Nat)
  | v6 (addr : List Nat) (port : Nat)
deriving DecidableEq

/-- Modelled from the spec: the peer attribute variants of `§3`. -/
inductive WgPeerAttrs where
  | Unspec (bytes : List Nat)
  | PublicKey (k : List Nat)
  | PresharedKey (k : List Nat)
  | Flags (v : Nat)
  | Endpoint (sa : SockAddr)
  | PersistentKeepalive (v : Nat)
  | LastHandshake (secs nanos : Nat)
  | RxBytes (v : Nat)
  | TxBytes (v : Nat)
  | ProtocolVersion (v : Nat)
  | AllowedIps (l : List WgAllowedIp)
deriving DecidableEq

/-- Modelled from the spec: one peer attribute group, owned by the device's
peer sequence (`WgPeer(pub Vec<WgPeerAttrs>)`). -/
structure WgPeer where
  attrs : List WgPeerAttrs
deriving DecidableEq

/-- Kernel layout of a socket address: family tag (native order), port
(big-endian, as in `sockaddr_in`), address bytes; the v4 form is padded to
the 16-byte `sockaddr_in` size, the v6 form carries the zero flow label and
scope fields of the 28-byte `sockaddr_in6`. -/
def sockAddrBytes : SockAddr → List Nat
  | .v4 addr port =>
    2 :: 0 :: port / 256 % 256 :: port % 256 :: (addr ++ List.replicate 8 0)
  | .v6 addr port =>
    10 :: 0 :: port / 256 % 256 :: port % 256 ::
      (0 :: 0 :: 0 :: 0 :: (addr ++ [0, 0, 0, 0]))

/-- Modelled from the spec: decoding the fixed kernel socket-address layout;
the family tag and the total size must match one of the two versions. -/
def parseSockAddr (payload : List Nat) : Except String SockAddr :=
  match payload with
  | f0 :: f1 :: p0 :: p1 :: rest =>
    let fam := f0 % 256 + 256 * (f1 % 256)
    let port := (p0 % 256) * 256 + p1 % 256
    if fam = AF_INET ∧ rest.length + 4 = 16 then
      .ok (.v4 (rest.take 4) port)
    else if fam = AF_INET6 ∧ rest.length + 4 = 28 then
      .ok (.v6 ((rest.drop 4).take 16) port)
    else .error "invalid endpoint socket address"
  | _ => .error "invalid endpoint socket address"

namespace WgPeerAttrs

/-- Modelled from the spec: `length(variant)` for the peer codec. -/
def value_len : WgPeerAttrs → Nat
  | .Unspec bytes => bytes.length
  | .PublicKey _ => WG_KEY_LEN
  | .PresharedKey _ => WG_KEY_LEN
  | .Flags _ => 4
  | .Endpoint (.v4 _ _) => 16
  | .Endpoint (.v6 _ _) => 28
  | .PersistentKeepalive _ => 2
  | .LastHandshake _ _ => 16
  | .RxBytes _ => 8
  | .TxBytes _ => 8
  | .ProtocolVersion _ => 4
  | .AllowedIps l => (l.map WgAllowedIp.buffer_len).sum

/-- Modelled from the spec: `tag(variant)` for the peer codec. -/
def kind : WgPeerAttrs → Nat
  | .Unspec _ => WGPEER_A_UNSPEC
  | .PublicKey _ => WGPEER_A_PUBLIC_KEY
  | .PresharedKey _ => WGPEER_A_PRESHARED_KEY
  | .Flags _ => WGPEER_A_FLAGS
  | .Endpoint _ => WGPEER_A_ENDPOINT
  | .PersistentKeepalive _ => WGPEER_A_PERSISTENT_KEEPALIVE_INTERVAL
  | .LastHandshake _ _ => WGPEER_A_LAST_HANDSHAKE_TIME
  | .RxBytes _ => WGPEER_A_RX_BYTES
  | .TxBytes _ => WGPEER_A_TX_BYTES
  | .ProtocolVersion _ => WGPEER_A_PROTOCOL_VERSION
  | .AllowedIps _ => WGPEER_A_ALLOWEDIPS

/-- Modelled from the spec: `encode(variant)` for the peer codec. -/
def emit_value : WgPeerAttrs → List Nat
  | .Unspec bytes => bytes
  | .PublicKey k => k
  | .PresharedKey k => k
  | .Flags v => writeLE 4 v
  | .Endpoint sa => sockAddrBytes sa
  | .PersistentKeepalive v => writeLE 2 v
  | .LastHandshake s n => writeLE 8 s ++ writeLE 8 n
  | .RxBytes v => writeLE 8 v
  | .TxBytes v => writeLE 8 v
  | .ProtocolVersion v => writeLE 4 v
  | .AllowedIps l => (l.map WgAllowedIp.emit).flatten

/-- Only the allowed-IPs variant is a nested attribute list. -/
def is_nested : WgPeerAttrs → Bool
  | .AllowedIps _ => true
  | _ => false

/-- The raw 16-bit kind field as emitted: the tag, with `NLA_F_NESTED` on
the nested variant. -/
def kindField (a : WgPeerAttrs) : Nat :=
  a.kind + (if a.is_nested then NLA_F_NESTED else 0)

/-- Total encoded length: header plus payload, aligned. -/
def buffer_len (a : WgPeerAttrs) : Nat := 4 + nlaAlign a.value_len

/-- Full encoding of one peer attribute. -/
def emit (a : WgPeerAttrs) : List Nat :=
  nlaEmit a.value_len a.kindField a.emit_value

/-- Constructibility of a peer attribute as a Rust value, plus
representability of its payload in the 16-bit TLV length field. -/
def wf : WgPeerAttrs → Bool
  | .Unspec b => bytesOk b && decide (b.length ≤ 65531)
  | .PublicKey k => decide (k.length = WG_KEY_LEN) && bytesOk k
  | .PresharedKey k => decide (k.length = WG_KEY_LEN) && bytesOk k
  | .Flags v => decide (v < 4294967296)
  | .Endpoint (.v4 addr port) =>
    decide (addr.length = 4) && bytesOk addr && decide (port < 65536)
  | .Endpoint (.v6 addr port) =>
    decide (addr.length = 16) && bytesOk addr && decide (port < 65536)
  | .PersistentKeepalive v => decide (v < 65536)
  | .LastHandshake s n =>
    decide (s < 18446744073709551616) && decide (n < 18446744073709551616)
  | .RxBytes v => decide (v < 18446744073709551616)
  | .TxBytes v => decide (v < 18446744073709551616)
  | .ProtocolVersion v => decide (v < 4294967296)
  | .AllowedIps l =>
    l.all WgAllowedIp.wf && decide ((l.map WgAllowedIp.buffer_len).sum ≤ 65531)

/-- Modelled from the spec: `decode(tag, payload)` for the peer codec;
unknown tags and length mismatches are decode failures, and the allowed-IPs
variant re-enters the TLV iterator on its payload, then on each discovered
group. -/
def parse (kind : Nat) (payload : List Nat) : Except String WgPeerAttrs :=
  if kind = WGPEER_A_UNSPEC then .ok (.Unspec payload)
  else if kind = WGPEER_A_PUBLIC_KEY then
    match tryIntoKey payload with
    | .ok k => .ok (.PublicKey k)
    | .error e => .error (errContext "invalid WGPEER_A_PUBLIC_KEY value" e)
  else if kind = WGPEER_A_PRESHARED_KEY then
    match tryIntoKey payload with
    | .ok k => .ok (.PresharedKey k)
    | .error e => .error (errContext "invalid WGPEER_A_PRESHARED_KEY value" e)
  else if kind = WGPEER_A_FLAGS then
    match parse_u32 payload with
    | .ok v => .ok (.Flags v)
    | .error e => .error (errContext "invalid WGPEER_A_FLAGS value" e)
  else if kind = WGPEER_A_ENDPOINT then
    match parseSockAddr payload with
    | .ok sa => .ok (.Endpoint sa)
    | .error e => .error (errContext "invalid WGPEER_A_ENDPOINT value" e)
  else if kind = WGPEER_A_PERSISTENT_KEEPALIVE_INTERVAL then
    match parse_u16 payload with
    | .ok v => .ok (.PersistentKeepalive v)
    | .error e =>
      .error
        (errContext "invalid WGPEER_A_PERSISTENT_KEEPALIVE_INTERVAL value" e)
  else if kind = WGPEER_A_LAST_HANDSHAKE_TIME then
    if payload.length = 16 then
      .ok (.LastHandshake (readLE (payload.take 8)) (readLE (payload.drop 8)))
    else .error "invalid WGPEER_A_LAST_HANDSHAKE_TIME value"
  else if kind = WGPEER_A_RX_BYTES then
    match parse_u64 payload with
    | .ok v => .ok (.RxBytes v)
    | .error e => .error (errContext "invalid WGPEER_A_RX_BYTES value" e)
  else if kind = WGPEER_A_TX_BYTES then
    match parse_u64 payload with
    | .ok v => .ok (.TxBytes v)
    | .error e => .error (errContext "invalid WGPEER_A_TX_BYTES value" e)
  else if kind = WGPEER_A_ALLOWEDIPS then
    match parseAllowedIpGroupItems (nlasStream payload) with
    | .ok l => .ok (.AllowedIps l)
    | .error e => .error e
  else if kind = WGPEER_A_PROTOCOL_VERSION then
    match parse_u32 payload with
    | .ok v => .ok (.ProtocolVersion v)
    | .error e =>
      .error (errContext "invalid WGPEER_A_PROTOCOL_VERSION value" e)
  else .error ("invalid NLA kind: " ++ toString kind)

theorem allowedIp_group_bounds (l : List WgAllowedIp)
    (h : ∀ g ∈ l, g.wf = true) :
    ∀ g ∈ l, g.emit_value.length = g.value_len ∧
      g.value_len + 4 ≤ 65535 ∧ g.kindField < 65536 := by
  intro g hg
  have hw := h g hg
  have hb : g.value_len ≤ 65531 := by
    have := hw
    simp [WgAllowedIp.wf] at this
    exact this.2
  exact ⟨WgAllowedIp.aip_emit_value_length g hw, by omega,
    by simp [WgAllowedIp.kindField, WgAllowedIp.kind, NLA_F_NESTED]⟩

theorem allowedIp_list_emit_length (l : List WgAllowedIp)
    (h : ∀ g ∈ l, g.wf = true) :
    ((l.map WgAllowedIp.emit).flatten).length =
      (l.map WgAllowedIp.buffer_len).sum := by
  rw [List.length_flatten, List.map_map]
  congr 1
  exact List.map_congr_left (fun g hg => WgAllowedIp.aip_emit_length g (h g hg))

/-- Iterating the encoded allowed-IP group sequence yields the groups'
records in order. -/
theorem nlasStream_allowedIps (l : List WgAllowedIp)
    (h : ∀ g ∈ l, g.wf = true) :
    nlasStream ((l.map WgAllowedIp.emit).flatten) =
      l.map (fun g => Except.ok (g.kindField, g.emit_value)) := by
  have := nlasStream_flatten_emit WgAllowedIp.value_len WgAllowedIp.kindField
    WgAllowedIp.emit_value l (allowedIp_group_bounds l h)
  simpa [WgAllowedIp.emit] using this

theorem peerAttr_emit_value_length (a : WgPeerAttrs) (h : a.wf = true) :
    a.emit_value.length = a.value_len := by
  match a with
  | .Unspec b => rfl
  | .PublicKey k =>
    simp [wf, bytesOk, WG_KEY_LEN] at h
    simp [emit_value, value_len, WG_KEY_LEN, h.1]
  | .PresharedKey k =>
    simp [wf, bytesOk, WG_KEY_LEN] at h
    simp [emit_value, value_len, WG_KEY_LEN, h.1]
  | .Flags v => simp [emit_value, value_len, length_writeLE]
  | .Endpoint (.v4 addr port) =>
    simp [wf, bytesOk] at h
    simp [emit_value, value_len, sockAddrBytes, length_writeLE, h.1]
  | .Endpoint (.v6 addr port) =>
    simp [wf, bytesOk] at h
    simp [emit_value, value_len, sockAddrBytes, length_writeLE, h.1]
  | .PersistentKeepalive v => simp [emit_value, value_len, length_writeLE]
  | .LastHandshake s n => simp [emit_value, value_len, length_writeLE]
  | .RxBytes v => simp [emit_value, value_len, length_writeLE]
  | .TxBytes v => simp [emit_value, value_len, length_writeLE]
  | .ProtocolVersion v => simp [emit_value, value_len, length_writeLE]
  | .AllowedIps l =>
    have hall : ∀ g ∈ l, g.wf = true := by
      simp [wf] at h
      exact h.1
    simpa [emit_value, value_len] using allowedIp_list_emit_length l hall

theorem peerAttr_emit_length (a : WgPeerAttrs) (h : a.wf = true) :
    a.emit.length = a.buffer_len := by
  rw [emit, nlaEmit_length _ _ _ (peerAttr_emit_value_length a h)]
  rfl

theorem peerAttr_kind_lt (a : WgPeerAttrs) : a.kind < 16384 := by
  cases a <;> simp [kind, WGPEER_A_UNSPEC, WGPEER_A_PUBLIC_KEY,
    WGPEER_A_PRESHARED_KEY, WGPEER_A_FLAGS, WGPEER_A_ENDPOINT,
    WGPEER_A_PERSISTENT_KEEPALIVE_INTERVAL, WGPEER_A_LAST_HANDSHAKE_TIME,
    WGPEER_A_RX_BYTES, WGPEER_A_TX_BYTES, WGPEER_A_PROTOCOL_VERSION,
    WGPEER_A_ALLOWEDIPS]

theorem peerAttr_parse_roundtrip (a : WgPeerAttrs) (h : a.wf = true) :
    parse a.kind a.emit_value = .ok a := by
  match a with
  | .Unspec b => rfl
  | .PublicKey k =>
    simp [wf, bytesOk, WG_KEY_LEN] at h
    simp [parse, kind, emit_value, WGPEER_A_UNSPEC, WGPEER_A_PUBLIC_KEY,
      tryIntoKey, h.1]
  | .PresharedKey k =>
    simp [wf, bytesOk, WG_KEY_LEN] at h
    simp [parse, kind, emit_value, WGPEER_A_UNSPEC, WGPEER_A_PUBLIC_KEY,
      WGPEER_A_PRESHARED_KEY, tryIntoKey, h.1]
  | .Flags v =>
    simp [wf] at h
    simp [parse, kind, emit_value, WGPEER_A_UNSPEC, WGPEER_A_PUBLIC_KEY,
      WGPEER_A_PRESHARED_KEY, WGPEER_A_FLAGS, parse_u32_writeLE v h]
  | .Endpoint (.v4 addr port) =>
    simp [wf, bytesOk] at h
    have htake : (addr ++ List.replicate 8 0).take 4 = addr := by
      rw [← h.1.1]
      exact List.take_left addr _
    have hport : port / 256 % 256 * 256 + port % 256 = port := by
      have := h.2
      omega
    have hsa : parseSockAddr (sockAddrBytes (.v4 addr port)) =
        .ok (.v4 addr port) := by
      simp [sockAddrBytes, parseSockAddr, AF_INET, h.1.1, htake, hport]
    simp [parse, kind, WGPEER_A_UNSPEC, WGPEER_A_PUBLIC_KEY,
      WGPEER_A_PRESHARED_KEY, WGPEER_A_FLAGS, WGPEER_A_ENDPOINT, emit_value,
      hsa]
  | .Endpoint (.v6 addr port) =>
    simp [wf, bytesOk] at h
    have htake : (addr ++ [0, 0, 0, 0]).take 16 = addr := by
      rw [← h.1.1]
      exact List.take_left addr _
    have hport : port / 256 % 256 * 256 + port % 256 = port := by
      have := h.2
      omega
    have hsa : parseSockAddr (sockAddrBytes (.v6 addr port)) =
        .ok (.v6 addr port) := by
      simp [sockAddrBytes, parseSockAddr, AF_INET, AF_INET6, h.1.1, htake,
        hport]
    simp [parse, kind, WGPEER_A_UNSPEC, WGPEER_A_PUBLIC_KEY,
      WGPEER_A_PRESHARED_KEY, WGPEER_A_FLAGS, WGPEER_A_ENDPOINT, emit_value,
      hsa]
  | .PersistentKeepalive v =>
    simp [wf] at h
    simp [parse, kind, emit_value, WGPEER_A_UNSPEC, WGPEER_A_PUBLIC_KEY,
      WGPEER_A_PRESHARED_KEY, WGPEER_A_FLAGS, WGPEER_A_ENDPOINT,
      WGPEER_A_PERSISTENT_KEEPALIVE_INTERVAL, parse_u16_writeLE v h]
  | .LastHandshake s n =>
    simp [wf] at h
    have hlen : (writeLE 8 s ++ writeLE 8 n).length = 16 := by
      simp [length_writeLE]
    have htake : (writeLE 8 s ++ writeLE 8 n).take 8 = writeLE 8 s := by
      rw [← length_writeLE 8 s]
      exact List.take_left _ _
    have hdrop : (writeLE 8 s ++ writeLE 8 n).drop 8 = writeLE 8 n := by
      rw [← length_writeLE 8 s]
      exact List.drop_left _ _
    simp [parse, kind, emit_value, WGPEER_A_UNSPEC, WGPEER_A_PUBLIC_KEY,
      WGPEER_A_PRESHARED_KEY, WGPEER_A_FLAGS, WGPEER_A_ENDPOINT,
      WGPEER_A_PERSISTENT_KEEPALIVE_INTERVAL, WGPEER_A_LAST_HANDSHAKE_TIME,
      hlen, htake, hdrop, readLE_writeLE 8 s (by omega),
      readLE_writeLE 8 n (by omega)]
  | .RxBytes v =>
    simp [wf] at h
    simp [parse, kind, emit_value, WGPEER_A_UNSPEC, WGPEER_A_PUBLIC_KEY,
      WGPEER_A_PRESHARED_KEY, WGPEER_A_FLAGS, WGPEER_A_ENDPOINT,
      WGPEER_A_PERSISTENT_KEEPALIVE_INTERVAL, WGPEER_A_LAST_HANDSHAKE_TIME,
      WGPEER_A_RX_BYTES, parse_u64_writeLE v h]
  | .TxBytes v =>
    simp [wf] at h
    simp [parse, kind, emit_value, WGPEER_A_UNSPEC, WGPEER_A_PUBLIC_KEY,
      WGPEER_A_PRESHARED_KEY, WGPEER_A_FLAGS, WGPEER_A_ENDPOINT,
      WGPEER_A_PERSISTENT_KEEPALIVE_INTERVAL, WGPEER_A_LAST_HANDSHAKE_TIME,
      WGPEER_A_RX_BYTES, WGPEER_A_TX_BYTES, parse_u64_writeLE v h]
  | .ProtocolVersion v =>
    simp [wf] at h
    simp [parse, kind, emit_value, WGPEER_A_UNSPEC, WGPEER_A_PUBLIC_KEY,
      WGPEER_A_PRESHARED_KEY, WGPEER_A_FLAGS, WGPEER_A_ENDPOINT,
      WGPEER_A_PERSISTENT_KEEPALIVE_INTERVAL, WGPEER_A_LAST_HANDSHAKE_TIME,
      WGPEER_A_RX_BYTES, WGPEER_A_TX_BYTES, WGPEER_A_ALLOWEDIPS,
      WGPEER_A_PROTOCOL_VERSION, parse_u32_writeLE v h]
  | .AllowedIps l =>
    simp only [wf, Bool.and_eq_true, decide_eq_true_eq] at h
    have hall : ∀ g ∈ l, g.wf = true := List.all_eq_true.mp h.1
    have hstream := nlasStream_allowedIps l hall
    have hgroups := parseAllowedIpGroupItems_roundtrip l h.1
    simp [parse, kind, emit_value, WGPEER_A_UNSPEC, WGPEER_A_PUBLIC_KEY,
      WGPEER_A_PRESHARED_KEY, WGPEER_A_FLAGS, WGPEER_A_ENDPOINT,
      WGPEER_A_PERSISTENT_KEEPALIVE_INTERVAL, WGPEER_A_LAST_HANDSHAKE_TIME,
      WGPEER_A_RX_BYTES, WGPEER_A_TX_BYTES, WGPEER_A_ALLOWEDIPS, hstream,
      hgroups]

end WgPeerAttrs

namespace WgPeer

/-- Modelled from the spec: a peer group's payload length is the sum of the
total encoded lengths of its attributes. -/
def value_len (p : WgPeer) : Nat :=
  (p.attrs.map WgPeerAttrs.buffer_len).sum

/-- Modelled from the spec: encoding a peer group emits each of its
attributes in sequence. -/
def emit_value (p : WgPeer) : List Nat :=
  (p.attrs.map WgPeerAttrs.emit).flatten

/-- Modelled from the spec: the tag of a peer group inside the device's
peer sequence (ignored by the decoder, which re-enters the stream on the
group's payload). -/
def kind (_ : WgPeer) : Nat := 0

/-- A peer group is a nested attribute list. -/
def is_nested (_ : WgPeer) : Bool := true

/-- The raw kind field of a peer group: its tag with `NLA_F_NESTED` set. -/
def kindField (p : WgPeer) : Nat := p.kind + NLA_F_NESTED

/-- A peer group's total encoded length (header plus payload, aligned). -/
def buffer_len (p : WgPeer) : Nat := 4 + nlaAlign p.value_len

/-- Full encoding of a peer group as one nested attribute. -/
def emit (p : WgPeer) : List Nat :=
  nlaEmit p.value_len p.kindField p.emit_value

/-- Constructibility of a peer group: every attribute is well-formed and
the group's payload fits its 16-bit length field. -/
def wf (p : WgPeer) : Bool :=
  p.attrs.all WgPeerAttrs.wf && decide (p.value_len ≤ 65531)

theorem peer_emit_value_length (p : WgPeer) (h : p.wf = true) :
    p.emit_value.length = p.value_len := by
  have hall : ∀ a ∈ p.attrs, a.wf = true := by
    simp [wf] at h
    exact h.1
  rw [emit_value, value_len, List.length_flatten, List.map_map]
  congr 1
  exact List.map_congr_left
    (fun a ha => WgPeerAttrs.peerAttr_emit_length a (hall a ha))

theorem peer_emit_length (p : WgPeer) (h : p.wf = true) :
    p.emit.length = p.buffer_len := by
  rw [emit, nlaEmit_length _ _ _ (peer_emit_value_length p h)]
  rfl

theorem peer_attr_bounds (p : WgPeer) (h : p.wf = true) :
    ∀ a ∈ p.attrs, a.emit_value.length = a.value_len ∧
      a.value_len + 4 ≤ 65535 ∧ a.kindField < 65536 := by
  intro a ha
  simp [wf] at h
  have hwfa : a.wf = true := h.1 a ha
  refine ⟨WgPeerAttrs.peerAttr_emit_value_length a hwfa, ?_, ?_⟩
  · have hmem : a.buffer_len ∈ p.attrs.map WgPeerAttrs.buffer_len :=
      List.mem_map_of_mem _ ha
    have hle : a.buffer_len ≤ p.value_len :=
      List.single_le_sum (fun x _ => Nat.zero_le x) _ hmem
    have := le_nlaAlign a.value_len
    simp [WgPeerAttrs.buffer_len] at hle
    omega
  · have := WgPeerAttrs.peerAttr_kind_lt a
    simp [WgPeerAttrs.kindField, NLA_F_NESTED]
    split <;> omega

/-- Iterating a peer group's payload yields exactly the records of its
encoded attributes. -/
theorem peer_nlasStream_emit_value (p : WgPeer) (h : p.wf = true) :
    nlasStream p.emit_value =
      p.attrs.map (fun a => Except.ok (a.kindField, a.emit_value)) := by
  rw [emit_value]
  have := nlasStream_flatten_emit WgPeerAttrs.value_len WgPeerAttrs.kindField
    WgPeerAttrs.emit_value p.attrs (peer_attr_bounds p h)
  simpa [WgPeerAttrs.emit] using this

end WgPeer

/-- The error message of `device.rs` wrapped around every failure inside a
`WGDEVICE_A_PEERS` payload. -/
def peersErr : String := "failed to parse WGDEVICE_A_PEERS"

/-- The inner loop of `WgDeviceAttrs::parse` for `WGDEVICE_A_PEERS`
(`device.rs` lines 128-133): one peer attribute per stream record of one
group's payload, every failure wrapped with the peers nesting-level
message, the first failure aborting the decode. -/
def parsePeerAttrItems :
    List (Except String (Nat × List Nat)) → Except String (List WgPeerAttrs)
  | [] => .ok []
  | .error e :: _ => .error (errContext peersErr e)
  | .ok r :: rest =>
    match WgPeerAttrs.parse (r.1 % 16384) r.2 with
    | .error e => .error (errContext peersErr e)
    | .ok a =>
      match parsePeerAttrItems rest with
      | .error e => .error e
      | .ok l => .ok (a :: l)

/-- The outer loop of `WgDeviceAttrs::parse` for `WGDEVICE_A_PEERS`
(`device.rs` lines 124-135): one peer group per stream record, re-entering
the TLV iterator on the group's payload. -/
def parsePeerGroupItems :
    List (Except String (Nat × List Nat)) → Except String (List WgPeer)
  | [] => .ok []
  | .error e :: _ => .error (errContext peersErr e)
  | .ok r :: rest =>
    match parsePeerAttrItems (nlasStream r.2) with
    | .error e => .error e
    | .ok attrs =>
      match parsePeerGroupItems rest with
      | .error e => .error e
      | .ok l => .ok (⟨attrs⟩ :: l)

theorem parsePeerAttrItems_roundtrip (attrs : List WgPeerAttrs)
    (h : attrs.all WgPeerAttrs.wf = true) :
    parsePeerAttrItems
      (attrs.map (fun a => Except.ok (a.kindField, a.emit_value))) =
      .ok attrs := by
  induction attrs with
  | nil => rfl
  | cons a l ih =>
    simp only [List.all_cons, Bool.and_eq_true] at h
    have hmask : a.kindField % 16384 = a.kind := by
      have := WgPeerAttrs.peerAttr_kind_lt a
      simp [WgPeerAttrs.kindField, NLA_F_NESTED]
      split <;> omega
    simp only [List.map_cons, parsePeerAttrItems, hmask,
      WgPeerAttrs.peerAttr_parse_roundtrip a h.1, ih h.2]

theorem parsePeerGroupItems_roundtrip (l : List WgPeer)
    (h : l.all WgPeer.wf = true) :
    parsePeerGroupItems
      (l.map (fun p => Except.ok (p.kindField, p.emit_value))) = .ok l := by
  induction l with
  | nil => rfl
  | cons p l ih =>
    simp only [List.all_cons, Bool.and_eq_true] at h
    have hp : p.wf = true := h.1
    have hattrs : p.attrs.all WgPeerAttrs.wf = true := by
      simp [WgPeer.wf] at hp
      exact List.all_eq_true.mpr hp.1
    simp only [List.map_cons, parsePeerGroupItems,
      WgPeer.peer_nlasStream_emit_value p hp,
      parsePeerAttrItems_roundtrip p.attrs hattrs, ih h.2]

theorem peer_group_bounds (l : List WgPeer) (h : ∀ p ∈ l, p.wf = true) :
    ∀ p ∈ l, p.emit_value.length = p.value_len ∧
      p.value_len + 4 ≤ 65535 ∧ p.kindField < 65536 := by
  intro p hp
  have hw := h p hp
  have hb : p.value_len ≤ 65531 := by
    have := hw
    simp [WgPeer.wf] at this
    exact this.2
  exact ⟨WgPeer.peer_emit_value_length p hw, by omega,
    by simp [WgPeer.kindField, WgPeer.kind, NLA_F_NESTED]⟩

theorem peer_list_emit_length (l : List WgPeer)
    (h : ∀ p ∈ l, p.wf = true) :
    ((l.map WgPeer.emit).flatten).length = (l.map WgPeer.buffer_len).sum := by
  rw [List.length_flatten, List.map_map]
  congr 1
  exact List.map_congr_left (fun p hp => WgPeer.peer_emit_length p (h p hp))

/-- Iterating the encoded peer sequence yields the peers' records in
order. -/
theorem nlasStream_peers (l : List WgPeer) (h : ∀ p ∈ l, p.wf = true) :
    nlasStream ((l.map WgPeer.emit).flatten) =
      l.map (fun p => Except.ok (p.kindField, p.emit_value)) := by
  have := nlasStream_flatten_emit WgPeer.value_len WgPeer.kindField
    WgPeer.emit_value l (peer_group_bounds l h)
  simpa [WgPeer.emit] using this

/-! ## Device attribute family (`src/nlas/device.rs`) -/

/-- The device attribute variants (`device.rs` lines 17-28).  The interface
name carries the byte content of the Rust `String` (valid UTF-8 for every
constructible value); the keys carry the 32 bytes of `[u8; WG_KEY_LEN]`. -/
inductive WgDeviceAttrs where
  | Unspec (bytes : List Nat)
  | IfIndex (v : Nat)
  | IfName (s : List Nat)
  | PrivateKey (k : List Nat)
  | PublicKey (k : List Nat)
  | ListenPort (v : Nat)
  | Fwmark (v : Nat)
  | Peers (l : List WgPeer)
  | Flags (v : Nat)
deriving DecidableEq

namespace WgDeviceAttrs

/-- `Nla::value_len` (`device.rs` lines 31-45): `size_of_val` of the scalar
or key, text length plus one, or the sum of the peers' `buffer_len`s. -/
def value_len : WgDeviceAttrs → Nat
  | .Unspec bytes => bytes.length
  | .IfIndex _ => 4
  | .IfName s => s.length + 1
  | .PrivateKey _ => WG_KEY_LEN
  | .PublicKey _ => WG_KEY_LEN
  | .ListenPort _ => 2
  | .Fwmark _ => 4
  | .Peers l => (l.map WgPeer.buffer_len).sum
  | .Flags _ => 4

/-- `Nla::kind` (`device.rs` lines 47-59). -/
def kind : WgDeviceAttrs → Nat
  | .Unspec _ => WGDEVICE_A_UNSPEC
  | .IfIndex _ => WGDEVICE_A_IFINDEX
  | .IfName _ => WGDEVICE_A_IFNAME
  | .PrivateKey _ => WGDEVICE_A_PRIVATE_KEY
  | .PublicKey _ => WGDEVICE_A_PUBLIC_KEY
  | .ListenPort _ => WGDEVICE_A_LISTEN_PORT
  | .Fwmark _ => WGDEVICE_A_FWMARK
  | .Peers _ => WGDEVICE_A_PEERS
  | .Flags _ => WGDEVICE_A_FLAGS

/-- `Nla::emit_value` (`device.rs` lines 61-82): the bytes written into the
value region of the destination buffer — the blob or key bytes verbatim,
native-order scalars, the text bytes followed by a zero terminator byte, or
each peer's full encoding in sequence. -/
def emit_value : WgDeviceAttrs → List Nat
  | .Unspec bytes => bytes
  | .IfIndex v => writeLE 4 v
  | .IfName s => s ++ [0]
  | .PrivateKey k => k
  | .PublicKey k => k
  | .ListenPort v => writeLE 2 v
  | .Fwmark v => writeLE 4 v
  | .Peers l => (l.map WgPeer.emit).flatten
  | .Flags v => writeLE 4 v

/-- `Nla::is_nested` (`device.rs` lines 84-86). -/
def is_nested : WgDeviceAttrs → Bool
  | .Peers _ => true
  | _ => false

/-- The raw 16-bit kind field as emitted: the tag, with `NLA_F_NESTED` on
the nested variant. -/
def kindField (a : WgDeviceAttrs) : Nat :=
  a.kind + (if a.is_nested then NLA_F_NESTED else 0)

/-- Total encoded length: header plus payload, aligned. -/
def buffer_len (a : WgDeviceAttrs) : Nat := 4 + nlaAlign a.value_len

/-- Full encoding of one device attribute (header, value, padding). -/
def emit (a : WgDeviceAttrs) : List Nat :=
  nlaEmit a.value_len a.kindField a.emit_value

/-- Constructibility of a device attribute as a Rust value (bytes are `u8`,
keys are 32 bytes, the name is the valid-UTF-8 content of a `String`,
scalars are in range) plus representability of its payload in the 16-bit
TLV length field. -/
def wf : WgDeviceAttrs → Bool
  | .Unspec b => bytesOk b && decide (b.length ≤ 65531)
  | .IfIndex v => decide (v < 4294967296)
  | .IfName s => utf8Valid s && bytesOk s && decide (s.length + 1 ≤ 65531)
  | .PrivateKey k => decide (k.length = WG_KEY_LEN) && bytesOk k
  | .PublicKey k => decide (k.length = WG_KEY_LEN) && bytesOk k
  | .ListenPort v => decide (v < 65536)
  | .Fwmark v => decide (v < 4294967296)
  | .Peers l =>
    l.all WgPeer.wf && decide ((l.map WgPeer.buffer_len).sum ≤ 65531)
  | .Flags v => decide (v < 4294967296)

/-- `Parseable::parse` (`device.rs` lines 92-148): dispatch on the masked
kind of the attribute buffer; the payload is the buffer's value slice. -/
def parse (kind : Nat) (payload : List Nat) : Except String WgDeviceAttrs :=
  if kind = WGDEVICE_A_UNSPEC then .ok (.Unspec payload)
  else if kind = WGDEVICE_A_IFINDEX then
    match parse_u32 payload with
    | .ok v => .ok (.IfIndex v)
    | .error e => .error (errContext "invalid WGDEVICE_A_IFINDEX value" e)
  else if kind = WGDEVICE_A_IFNAME then
    match parse_string payload with
    | .ok s => .ok (.IfName s)
    | .error e => .error (errContext "invalid WGDEVICE_A_IFNAME value" e)
  else if kind = WGDEVICE_A_PRIVATE_KEY then
    match tryIntoKey payload with
    | .ok k => .ok (.PrivateKey k)
    | .error e => .error (errContext "invalid WGDEVICE_A_PRIVATE_KEY value" e)
  else if kind = WGDEVICE_A_PUBLIC_KEY then
    match tryIntoKey payload with
    | .ok k => .ok (.PublicKey k)
    | .error e => .error (errContext "invalid WGDEVICE_A_PUBLIC_KEY value" e)
  else if kind = WGDEVICE_A_LISTEN_PORT then
    match parse_u16 payload with
    | .ok v => .ok (.ListenPort v)
    | .error e => .error (errContext "invalid WGDEVICE_A_LISTEN_PORT value" e)
  else if kind = WGDEVICE_A_FWMARK then
    match parse_u32 payload with
    | .ok v => .ok (.Fwmark v)
    | .error e => .error (errContext "invalid WGDEVICE_A_FWMARK value" e)
  else if kind = WGDEVICE_A_PEERS then
    match parsePeerGroupItems (nlasStream payload) with
    | .ok peers => .ok (.Peers peers)
    | .error e => .error e
  else if kind = WGDEVICE_A_FLAGS then
    match parse_u32 payload with
    | .ok v => .ok (.Flags v)
    | .error e => .error (errContext "invalid WGDEVICE_A_FLAGS value" e)
  else .error ("invalid NLA kind: " ++ toString kind)

theorem dev_emit_value_length (a : WgDeviceAttrs) (h : a.wf = true) :
    a.emit_value.length = a.value_len := by
  match a with
  | .Unspec b => rfl
  | .IfIndex v => simp [emit_value, value_len, length_writeLE]
  | .IfName s => simp [emit_value, value_len]
  | .PrivateKey k =>
    simp [wf, bytesOk, WG_KEY_LEN] at h
    simp [emit_value, value_len, WG_KEY_LEN, h.1]
  | .PublicKey k =>
    simp [wf, bytesOk, WG_KEY_LEN] at h
    simp [emit_value, value_len, WG_KEY_LEN, h.1]
  | .ListenPort v => simp [emit_value, value_len, length_writeLE]
  | .Fwmark v => simp [emit_value, value_len, length_writeLE]
  | .Peers l =>
    have hall : ∀ p ∈ l, p.wf = true := by
      simp [wf] at h
      exact h.1
    simpa [emit_value, value_len] using peer_list_emit_length l hall
  | .Flags v => simp [emit_value, value_len, length_writeLE]

theorem dev_emit_length (a : WgDeviceAttrs) (h : a.wf = true) :
    a.emit.length = a.buffer_len := by
  rw [emit, nlaEmit_length _ _ _ (dev_emit_value_length a h)]
  rfl

theorem dev_kind_lt (a : WgDeviceAttrs) : a.kind < 16384 := by
  cases a <;> simp [kind, WGDEVICE_A_UNSPEC, WGDEVICE_A_IFINDEX,
    WGDEVICE_A_IFNAME, WGDEVICE_A_PRIVATE_KEY, WGDEVICE_A_PUBLIC_KEY,
    WGDEVICE_A_LISTEN_PORT, WGDEVICE_A_FWMARK, WGDEVICE_A_PEERS,
    WGDEVICE_A_FLAGS]

theorem dev_parse_roundtrip (a : WgDeviceAttrs) (h : a.wf = true) :
    parse a.kind a.emit_value = .ok a := by
  match a with
  | .Unspec b => rfl
  | .IfIndex v =>
    simp [wf] at h
    simp [parse, kind, emit_value, WGDEVICE_A_UNSPEC, WGDEVICE_A_IFINDEX,
      parse_u32_writeLE v h]
  | .IfName s =>
    simp only [wf, Bool.and_eq_true] at h
    have hdl : (s ++ [0]).dropLast = s := List.dropLast_concat
    have hne : (s ++ [0]).isEmpty = false := by
      cases s <;> rfl
    simp [parse, kind, emit_value, WGDEVICE_A_UNSPEC, WGDEVICE_A_IFINDEX,
      WGDEVICE_A_IFNAME, parse_string, hne, hdl, h.1.1]
  | .PrivateKey k =>
    simp [wf, bytesOk, WG_KEY_LEN] at h
    simp [parse, kind, emit_value, WGDEVICE_A_UNSPEC, WGDEVICE_A_IFINDEX,
      WGDEVICE_A_IFNAME, WGDEVICE_A_PRIVATE_KEY, tryIntoKey, h.1]
  | .PublicKey k =>
    simp [wf, bytesOk, WG_KEY_LEN] at h
    simp [parse, kind, emit_value, WGDEVICE_A_UNSPEC, WGDEVICE_A_IFINDEX,
      WGDEVICE_A_IFNAME, WGDEVICE_A_PRIVATE_KEY, WGDEVICE_A_PUBLIC_KEY,
      tryIntoKey, h.1]
  | .ListenPort v =>
    simp [wf] at h
    simp [parse, kind, emit_value, WGDEVICE_A_UNSPEC, WGDEVICE_A_IFINDEX,
      WGDEVICE_A_IFNAME, WGDEVICE_A_PRIVATE_KEY, WGDEVICE_A_PUBLIC_KEY,
      WGDEVICE_A_LISTEN_PORT, parse_u16_writeLE v h]
  | .Fwmark v =>
    simp [wf] at h
    simp [parse, kind, emit_value, WGDEVICE_A_UNSPEC, WGDEVICE_A_IFINDEX,
      WGDEVICE_A_IFNAME, WGDEVICE_A_PRIVATE_KEY, WGDEVICE_A_PUBLIC_KEY,
      WGDEVICE_A_LISTEN_PORT, WGDEVICE_A_FWMARK, parse_u32_writeLE v h]
  | .Peers l =>
    simp only [wf, Bool.and_eq_true, decide_eq_true_eq] at h
    have hall : ∀ p ∈ l, p.wf = true := List.all_eq_true.mp h.1
    have hstream := nlasStream_peers l hall
    have hgroups := parsePeerGroupItems_roundtrip l h.1
    simp [parse, kind, emit_value, WGDEVICE_A_UNSPEC, WGDEVICE_A_IFINDEX,
      WGDEVICE_A_IFNAME, WGDEVICE_A_PRIVATE_KEY, WGDEVICE_A_PUBLIC_KEY,
      WGDEVICE_A_LISTEN_PORT, WGDEVICE_A_FWMARK, WGDEVICE_A_PEERS, hstream,
      hgroups]
  | .Flags v =>
    simp [wf] at h
    simp [parse, kind, emit_value, WGDEVICE_A_UNSPEC, WGDEVICE_A_IFINDEX,
      WGDEVICE_A_IFNAME, WGDEVICE_A_PRIVATE_KEY, WGDEVICE_A_PUBLIC_KEY,
      WGDEVICE_A_LISTEN_PORT, WGDEVICE_A_FWMARK, WGDEVICE_A_PEERS,
      WGDEVICE_A_FLAGS, parse_u32_writeLE v h]

end WgDeviceAttrs

/-- Decoding one device attribute from a buffer: validate the TLV header
(`NlaBuffer::new_checked`), then dispatch `WgDeviceAttrs::parse` on the
masked kind with the value slice as payload. -/
def decodeDevice (buf : List Nat) : Except String WgDeviceAttrs :=
  match checkHeader buf with
  | .error e => .error e
  | .ok (len, kf) =>
    WgDeviceAttrs.parse (kf % 16384) ((buf.drop 4).take (len - 4))

theorem checkHeader_nlaEmit (vlen kf : Nat) (value : List Nat)
    (hl : value.length = vlen) (hbnd : vlen + 4 ≤ 65535) (hk : kf < 65536) :
    checkHeader (nlaEmit vlen kf value) = .ok (vlen + 4, kf) := by
  have hal := le_nlaAlign vlen
  have hexp : nlaEmit vlen kf value =
      (vlen + 4) % 256 :: (vlen + 4) / 256 % 256 :: kf % 256 :: kf / 256 % 256 ::
        (value ++ List.replicate (nlaAlign vlen - vlen) 0) := by
    simp [nlaEmit, writeLE]
  rw [hexp]
  simp only [checkHeader, List.length_append, List.length_replicate, hl]
  have h1 : (vlen + 4) % 256 % 256 + 256 * ((vlen + 4) / 256 % 256 % 256) =
      vlen + 4 := by omega
  have h2 : kf % 256 % 256 + 256 * (kf / 256 % 256 % 256) = kf := by omega
  rw [h1, h2, if_neg (by omega), if_neg (by omega)]

theorem nlaEmit_value_slice (vlen kf : Nat) (value : List Nat)
    (hl : value.length = vlen) :
    ((nlaEmit vlen kf value).drop 4).take (vlen + 4 - 4) = value := by
  have hexp : nlaEmit vlen kf value =
      (vlen + 4) % 256 :: (vlen + 4) / 256 % 256 :: kf % 256 :: kf / 256 % 256 ::
        (value ++ List.replicate (nlaAlign vlen - vlen) 0) := by
    simp [nlaEmit, writeLE]
  rw [hexp, Nat.add_sub_cancel]
  simp only [List.drop_succ_cons, List.drop_zero]
  exact List.take_left' hl

theorem kindField_mask (a : WgDeviceAttrs) :
    a.kindField % 16384 = a.kind := by
  have := WgDeviceAttrs.dev_kind_lt a
  simp [WgDeviceAttrs.kindField, NLA_F_NESTED]
  split <;> omega

theorem kindField_lt (a : WgDeviceAttrs) : a.kindField < 65536 := by
  have := WgDeviceAttrs.dev_kind_lt a
  simp [WgDeviceAttrs.kindField, NLA_F_NESTED]
  split <;> omega

/-- Full-wire round trip for one device attribute: decoding the complete
encoding (header, value, padding) of any constructible attribute returns
that attribute. -/
theorem decodeDevice_emit (a : WgDeviceAttrs) (h : a.wf = true) :
    decodeDevice a.emit = .ok a := by
  have hvb : a.value_len + 4 ≤ 65535 := by
    match a, h with
    | .Unspec b, h =>
      simp [WgDeviceAttrs.wf] at h
      simp [WgDeviceAttrs.value_len]
      omega
    | .IfIndex v, h => simp [WgDeviceAttrs.value_len]
    | .IfName s, h =>
      simp [WgDeviceAttrs.wf] at h
      simp [WgDeviceAttrs.value_len]
      omega
    | .PrivateKey k, h => simp [WgDeviceAttrs.value_len, WG_KEY_LEN]
    | .PublicKey k, h => simp [WgDeviceAttrs.value_len, WG_KEY_LEN]
    | .ListenPort v, h => simp [WgDeviceAttrs.value_len]
    | .Fwmark v, h => simp [WgDeviceAttrs.value_len]
    | .Peers l, h =>
      simp [WgDeviceAttrs.wf] at h
      simp [WgDeviceAttrs.value_len]
      omega
    | .Flags v, h => simp [WgDeviceAttrs.value_len]
  rw [decodeDevice, WgDeviceAttrs.emit,
    checkHeader_nlaEmit _ _ _ (WgDeviceAttrs.dev_emit_value_length a h) hvb
      (kindField_lt a)]
  dsimp only
  rw [nlaEmit_value_slice _ _ _ (WgDeviceAttrs.dev_emit_value_length a h),
    kindField_mask a]
  exact WgDeviceAttrs.dev_parse_roundtrip a h

/-- Every failure of the inner peers loop carries the peers nesting-level
message. -/
theorem parsePeerAttrItems_error_shape
    (items : List (Except String (Nat × List Nat))) (e : String)
    (h : parsePeerAttrItems items = .error e) :
    ∃ e2, e = errContext peersErr e2 := by
  induction items with
  | nil => exact absurd h (by simp [parsePeerAttrItems])
  | cons item rest ih =>
    match item with
    | .error e0 =>
      simp only [parsePeerAttrItems, Except.error.injEq] at h
      exact ⟨e0, h.symm⟩
    | .ok r =>
      simp only [parsePeerAttrItems] at h
      match hp : WgPeerAttrs.parse (r.1 % 16384) r.2 with
      | .error e0 =>
        rw [hp] at h
        simp only [Except.error.injEq] at h
        exact ⟨e0, h.symm⟩
      | .ok a =>
        rw [hp] at h
        match hr : parsePeerAttrItems rest with
        | .error e1 =>
          rw [hr] at h
          simp only [Except.error.injEq] at h
          subst h
          exact ih hr
        | .ok l =>
          rw [hr] at h
          exact absurd h (by simp)

/-- Every failure of the outer peers loop carries the peers nesting-level
message. -/
theorem parsePeerGroupItems_error_shape
    (items : List (Except String (Nat × List Nat))) (e : String)
    (h : parsePeerGroupItems items = .error e) :
    ∃ e2, e = errContext peersErr e2 := by
  induction items with
  | nil => exact absurd h (by simp [parsePeerGroupItems])
  | cons item rest ih =>
    match item with
    | .error e0 =>
      simp only [parsePeerGroupItems, Except.error.injEq] at h
      exact ⟨e0, h.symm⟩
    | .ok r =>
      simp only [parsePeerGroupItems] at h
      match hp : parsePeerAttrItems (nlasStream r.2) with
      | .error e0 =>
        rw [hp] at h
        simp only [Except.error.injEq] at h
        subst h
        exact parsePeerAttrItems_error_shape _ _ hp
      | .ok attrs =>
        rw [hp] at h
        match hr : parsePeerGroupItems rest with
        | .error e1 =>
          rw [hr] at h
          simp only [Except.error.injEq] at h
          subst h
          exact ih hr
        | .ok l =>
          rw [hr] at h
          exact absurd h (by simp)

/-- Sample configuration value used by the concrete witnesses: one peer with
a public key, a v4 endpoint and one v4 allowed-IP range, matching the
shipped `set_wireguard` example. -/
def samplePeer : WgPeer :=
  ⟨[WgPeerAttrs.PublicKey (List.replicate 32 7),
    WgPeerAttrs.Endpoint (SockAddr.v4 [10, 10, 10, 1] 51820),
    WgPeerAttrs.AllowedIps
      [⟨[WgAllowedIpAttrs.Family 2,
         WgAllowedIpAttrs.IpAddr (IpAddrV.v4 [0, 0, 0, 0]),
         WgAllowedIpAttrs.Cidr 0]⟩]]⟩

/-- The sample device attribute: a peers list holding `samplePeer`. -/
def samplePeersAttr : WgDeviceAttrs := WgDeviceAttrs.Peers [samplePeer]

/-! ## Claims -/

/-- Claim C1: for every constructible device-attribute value (including a
`Peers` variant containing peers with allowed-IP lists), decoding the
encoding yields the value back, preserving the order of peers and of
allowed-IP entries within a peer (the equality is on the whole structure,
sequences included). -/
theorem device_attr_roundtrip (a : WgDeviceAttrs) (h : a.wf = true) :
    decodeDevice a.emit = .ok a :=
  decodeDevice_emit a h

/-- Witness for C1 at a concrete peers value with a nested allowed-IP
list. -/
theorem device_attr_roundtrip_witness :
    samplePeersAttr.wf = true ∧
      decodeDevice samplePeersAttr.emit = .ok samplePeersAttr :=
  ⟨by decide, device_attr_roundtrip samplePeersAttr (by decide)⟩

/-- Claim C2: for every constructible device-attribute variant, `value_len`
equals the number of payload bytes written by `emit_value`; in particular
the `Peers` value length is the sum of the peers' total encoded lengths
(header plus payload, aligned). -/
theorem device_value_len_matches_emit (a : WgDeviceAttrs) (h : a.wf = true) :
    a.value_len = a.emit_value.length ∧
      ∀ l, a = WgDeviceAttrs.Peers l →
        a.value_len = (l.map WgPeer.buffer_len).sum :=
  ⟨(WgDeviceAttrs.dev_emit_value_length a h).symm, fun l hl => by subst hl; rfl⟩

/-- Witness for C2 at the concrete peers value. -/
theorem device_value_len_matches_emit_witness :
    samplePeersAttr.wf = true ∧
      samplePeersAttr.value_len = samplePeersAttr.emit_value.length :=
  ⟨by decide, (device_value_len_matches_emit samplePeersAttr (by decide)).1⟩

/-- Claim C3: for every numeric tag that is not one of the recognized
device-attribute kinds, and every payload, decoding fails with an error
whose message carries the offending numeric tag — never a silent skip. -/
theorem device_unknown_kind_rejected (kind : Nat) (payload : List Nat)
    (h : kind ∉ [WGDEVICE_A_UNSPEC, WGDEVICE_A_IFINDEX, WGDEVICE_A_IFNAME,
      WGDEVICE_A_PRIVATE_KEY, WGDEVICE_A_PUBLIC_KEY, WGDEVICE_A_LISTEN_PORT,
      WGDEVICE_A_FWMARK, WGDEVICE_A_PEERS, WGDEVICE_A_FLAGS]) :
    WgDeviceAttrs.parse kind payload =
      .error ("invalid NLA kind: " ++ toString kind) := by
  simp only [List.mem_cons, List.not_mem_nil, or_false, not_or,
    WGDEVICE_A_UNSPEC, WGDEVICE_A_IFINDEX, WGDEVICE_A_IFNAME,
    WGDEVICE_A_PRIVATE_KEY, WGDEVICE_A_PUBLIC_KEY, WGDEVICE_A_LISTEN_PORT,
    WGDEVICE_A_FWMARK, WGDEVICE_A_PEERS, WGDEVICE_A_FLAGS] at h
  obtain ⟨h0, h1, h2, h3, h4, h6, h7, h8, h5⟩ := h
  simp [WgDeviceAttrs.parse, WGDEVICE_A_UNSPEC, WGDEVICE_A_IFINDEX,
    WGDEVICE_A_IFNAME, WGDEVICE_A_PRIVATE_KEY, WGDEVICE_A_PUBLIC_KEY,
    WGDEVICE_A_LISTEN_PORT, WGDEVICE_A_FWMARK, WGDEVICE_A_PEERS,
    WGDEVICE_A_FLAGS, h0, h1, h2, h3, h4, h5, h6, h7, h8]

/-- Witness for C3 at tag 99. -/
theorem device_unknown_kind_rejected_witness :
    (99 : Nat) ∉ [WGDEVICE_A_UNSPEC, WGDEVICE_A_IFINDEX, WGDEVICE_A_IFNAME,
      WGDEVICE_A_PRIVATE_KEY, WGDEVICE_A_PUBLIC_KEY, WGDEVICE_A_LISTEN_PORT,
      WGDEVICE_A_FWMARK, WGDEVICE_A_PEERS, WGDEVICE_A_FLAGS] ∧
      WgDeviceAttrs.parse 99 [1, 2, 3] =
        .error ("invalid NLA kind: " ++ toString (99 : Nat)) :=
  ⟨by decide, device_unknown_kind_rejected 99 [1, 2, 3] (by decide)⟩

/-- Claim C4: for the 32-byte key tags, decoding succeeds exactly when the
payload is exactly `WG_KEY_LEN` bytes, in which case the key is those very
bytes; any other length is an error — never truncation or padding. -/
theorem device_key_parse_exact_len (payload : List Nat) :
    (WgDeviceAttrs.parse WGDEVICE_A_PRIVATE_KEY payload =
      if payload.length = WG_KEY_LEN then
        .ok (WgDeviceAttrs.PrivateKey payload)
      else
        .error (errContext "invalid WGDEVICE_A_PRIVATE_KEY value"
          "could not convert slice to an array")) ∧
    (WgDeviceAttrs.parse WGDEVICE_A_PUBLIC_KEY payload =
      if payload.length = WG_KEY_LEN then
        .ok (WgDeviceAttrs.PublicKey payload)
      else
        .error (errContext "invalid WGDEVICE_A_PUBLIC_KEY value"
          "could not convert slice to an array")) := by
  constructor <;>
    · by_cases hl : payload.length = 32 <;>
        simp [WgDeviceAttrs.parse, WGDEVICE_A_UNSPEC, WGDEVICE_A_IFINDEX,
          WGDEVICE_A_IFNAME, WGDEVICE_A_PRIVATE_KEY, WGDEVICE_A_PUBLIC_KEY,
          tryIntoKey, WG_KEY_LEN, errContext, hl]

/-- Claim C5: decoding a `WGDEVICE_A_PEERS` payload either succeeds with a
full peer list or fails with an error wrapped with the message identifying
the peers nesting level — no partial peer list is ever returned; in
particular a declared record length exceeding the remaining buffer (here a
4-byte payload declaring 8 bytes) yields that wrapped error. -/
theorem device_peers_parse_total_or_wrapped :
    (∀ payload : List Nat,
      (∃ peers, WgDeviceAttrs.parse WGDEVICE_A_PEERS payload =
        .ok (WgDeviceAttrs.Peers peers)) ∨
      (∃ e, WgDeviceAttrs.parse WGDEVICE_A_PEERS payload =
        .error (errContext peersErr e))) ∧
    WgDeviceAttrs.parse WGDEVICE_A_PEERS [8, 0, 0, 0] =
      .error (errContext peersErr "NLA length field overruns buffer") := by
  constructor
  · intro payload
    match hp : parsePeerGroupItems (nlasStream payload) with
    | .ok peers =>
      left
      exact ⟨peers, by
        simp [WgDeviceAttrs.parse, WGDEVICE_A_UNSPEC, WGDEVICE_A_IFINDEX,
          WGDEVICE_A_IFNAME, WGDEVICE_A_PRIVATE_KEY, WGDEVICE_A_PUBLIC_KEY,
          WGDEVICE_A_LISTEN_PORT, WGDEVICE_A_FWMARK, WGDEVICE_A_PEERS, hp]⟩
    | .error e =>
      right
      obtain ⟨e2, he2⟩ := parsePeerGroupItems_error_shape _ _ hp
      exact ⟨e2, by
        rw [← he2]
        simp [WgDeviceAttrs.parse, WGDEVICE_A_UNSPEC, WGDEVICE_A_IFINDEX,
          WGDEVICE_A_IFNAME, WGDEVICE_A_PRIVATE_KEY, WGDEVICE_A_PUBLIC_KEY,
          WGDEVICE_A_LISTEN_PORT, WGDEVICE_A_FWMARK, WGDEVICE_A_PEERS, hp]⟩
  · decide

/-- Claim C6: an `IfName` carrying text bytes `s` has encoded value length
`s.length + 1`, and `emit_value` writes the bytes of `s` followed by one
zero terminator byte. -/
theorem device_ifname_emit_shape (s : List Nat) :
    WgDeviceAttrs.value_len (WgDeviceAttrs.IfName s) = s.length + 1 ∧
      WgDeviceAttrs.emit_value (WgDeviceAttrs.IfName s) = s ++ [0] :=
  ⟨rfl, rfl⟩

/-- Claim C7: decoding a `WGDEVICE_A_IFNAME` attribute strips the trailing
terminator byte and returns the remaining bytes as the text when they are
valid UTF-8, and fails otherwise — never a substituted or lossy name. -/
theorem device_ifname_parse_strips_terminator (payload : List Nat) :
    WgDeviceAttrs.parse WGDEVICE_A_IFNAME payload =
      if utf8Valid payload.dropLast then
        .ok (WgDeviceAttrs.IfName payload.dropLast)
      else
        .error (errContext "invalid WGDEVICE_A_IFNAME value"
          "invalid string") := by
  match payload with
  | [] => rfl
  | b :: rest =>
    by_cases hv : utf8Valid (b :: rest).dropLast = true <;>
      simp [WgDeviceAttrs.parse, WGDEVICE_A_UNSPEC, WGDEVICE_A_IFINDEX,
        WGDEVICE_A_IFNAME, parse_string, errContext, hv]

/-- Claim C8: a `Peers` variant with zero peer groups has value length zero
and an empty emitted payload, and decoding a `WGDEVICE_A_PEERS` attribute
with an empty payload yields a `Peers` variant with an empty peer
sequence. -/
theorem device_empty_peers_roundtrip :
    WgDeviceAttrs.value_len (WgDeviceAttrs.Peers []) = 0 ∧
      WgDeviceAttrs.emit_value (WgDeviceAttrs.Peers []) = [] ∧
      WgDeviceAttrs.parse WGDEVICE_A_PEERS [] =
        .ok (WgDeviceAttrs.Peers []) := by
  refine ⟨rfl, rfl, ?_⟩
  decide

/-- Counterexample to C9 as stated: a 16-byte interface name is a
constructible `IfName` value whose encoded value length is 17 bytes — the
codec does not bound the name length. -/
theorem device_ifname_max_len_cex :
    (WgDeviceAttrs.IfName (List.replicate 16 97)).wf = true ∧
      ¬((WgDeviceAttrs.IfName (List.replicate 16 97)).value_len ≤ 16) := by
  decide

/-- Claim C9 (amended): for an `IfName` whose text is at most 15 bytes, the
encoded value length does not exceed 16 bytes; the codec itself does not
enforce this bound on longer names. -/
theorem device_ifname_len_within_limit (s : List Nat) (h : s.length ≤ 15) :
    WgDeviceAttrs.value_len (WgDeviceAttrs.IfName s) ≤ 16 := by
  simp [WgDeviceAttrs.value_len]
  omega

/-- Witness for the amended C9 at the name "wg0". -/
theorem device_ifname_len_within_limit_witness :
    ([119, 103, 48] : List Nat).length ≤ 15 ∧
      WgDeviceAttrs.value_len (WgDeviceAttrs.IfName [119, 103, 48]) ≤ 16 :=
  ⟨by decide, device_ifname_len_within_limit [119, 103, 48] (by decide)⟩

/-- Claim C10: decoding a `WGDEVICE_A_UNSPEC` attribute never fails: every
payload, the empty one included, parses to an `Unspec` variant carrying an
owned copy of exactly the payload bytes. -/
theorem device_unspec_parse_total (payload : List Nat) :
    WgDeviceAttrs.parse WGDEVICE_A_UNSPEC payload =
      .ok (WgDeviceAttrs.Unspec payload) := rfl

end Wg
